import Mathlib

/-!
Verification of the `jsonvaluate` condition-evaluation engine (`condition.go`)
against its natural-language specification.

The Go source is shallowly embedded: Go `interface{}` values that flow through
the evaluator are modelled by the closed sum type `Value`; Go `float64` is
modelled exactly by `ℚ` (every decimal literal the engine parses is a rational;
IEEE-754 rounding, `Inf`/`NaN` literals and hexadecimal float syntax are outside
the modelled value space); Go `time.Time` is modelled as whole seconds since the
Unix epoch (sub-second precision is truncated, zone offsets are normalised to
UTC at parse time exactly as the source's parse-and-compare does).  The global
`customOperators` map guarded by `customOpsMutex` is modelled as an explicit
association-list registry value threaded through every function that reads it;
a custom validator is `Value → Value → Option Bool`, where `none` models the
validator panicking (the source recovers such a panic and the enclosing
`evalSingleCondition` then returns `false`, the zero value of its result).
Functions that panic in Go (`RegisterCustomOperator` on a nil validator) return
`Option` here, `none` modelling the panic.
-/

namespace Jsonvaluate

/-- Model of the Go `interface{}` values the evaluator consumes: `null` is the
nil interface, `int` covers the non-`int64` integer kinds (`int`, `int8`, …,
`uint64` — all widened to their mathematical value), `i64` is Go `int64`
(distinguished because `toTime` treats exactly `int64` as Unix seconds),
`float` is `float32`/`float64` (modelled exactly as a rational), `time` is
`time.Time` as Unix seconds, `list` is a slice `[]interface{}` and `map` is a
`map[string]interface{}` held in a canonical key order. -/
inductive Value : Type where
  | null : Value
  | bool : Bool → Value
  | str : String → Value
  | int : ℤ → Value
  | i64 : ℤ → Value
  | float : ℚ → Value
  | time : ℤ → Value
  | list : List Value → Value
  | map : List (String × Value) → Value

/-- The Go test `v == nil` on an `interface{}` value. -/
def valueIsNil : Value → Bool
  | .null => true
  | _ => false

/-- `isEmpty` from `condition.go`: nil is empty, a string is empty iff `""`,
slices and maps are empty iff zero length, every other kind is non-empty
(the `reflect.Ptr`/`reflect.Interface` cases of the source collapse into the
nil case in this model, since the model has no typed nil pointers). -/
def isEmpty : Value → Bool
  | .null => true
  | .str s => s = ""
  | .list xs => xs.length = 0
  | .map m => m.length = 0
  | _ => false

/-- `toBool` from `condition.go`: nil → false, bool passthrough, a string is
true iff it lower-cases to `"true"`, numerics are true iff non-zero, anything
else is true iff not `isEmpty`. -/
def toBool : Value → Bool
  | .null => false
  | .bool b => b
  | .str s => s.toLower = "true"
  | .int n => n ≠ 0
  | .i64 n => n ≠ 0
  | .float q => q ≠ 0
  | v => !isEmpty v

/-- Digits of a decimal literal to a natural number. -/
def digitsToNat (cs : List Char) : ℕ :=
  cs.foldl (fun a c => a * 10 + (c.toNat - '0'.toNat)) 0

/-- Model of `strconv.ParseFloat` as used by `parseFloat` in `condition.go`:
the whole string must be a decimal floating literal
`[+-]? digits [. digits?]? | [+-]? . digits`, optionally followed by
`[eE][+-]?digits`.  The value is computed exactly in `ℚ`.  The `Inf`/`NaN`
words, hexadecimal floats, digit-group underscores and the overflow error of
the real `ParseFloat` are outside the modelled string space. -/
def parseFloat (s : String) : Option ℚ :=
  let cs := s.toList
  let neg : Bool := cs.head? = some '-'
  let cs := if cs.head? = some '-' ∨ cs.head? = some '+' then cs.drop 1 else cs
  let intDigits := cs.takeWhile Char.isDigit
  let cs := cs.dropWhile Char.isDigit
  let fracDigits :=
    if cs.head? = some '.' then (cs.drop 1).takeWhile Char.isDigit else []
  let cs :=
    if cs.head? = some '.' then (cs.drop 1).dropWhile Char.isDigit else cs
  if intDigits.isEmpty ∧ fracDigits.isEmpty then none
  else
    let mant : ℤ :=
      (if neg then -1 else 1) * (digitsToNat (intDigits ++ fracDigits) : ℤ)
    let fracLen := fracDigits.length
    match cs with
    | [] => some (mkRat mant ((10 : ℕ) ^ fracLen))
    | e :: r =>
      if e = 'e' ∨ e = 'E' then
        let eneg : Bool := r.head? = some '-'
        let r := if r.head? = some '-' ∨ r.head? = some '+' then r.drop 1 else r
        let eDigits := r.takeWhile Char.isDigit
        let r := r.dropWhile Char.isDigit
        if eDigits.isEmpty ∨ ¬ r.isEmpty then none
        else
          let ex := digitsToNat eDigits
          if eneg then some (mkRat mant ((10 : ℕ) ^ (fracLen + ex)))
          else some (mkRat (mant * ((10 : ℕ) ^ ex : ℕ)) ((10 : ℕ) ^ fracLen))
      else none

/-- `toNumber` from `condition.go`: every Go numeric kind widens to a number;
a string is a number iff the entire string parses (`parseFloat`); all other
kinds fail. -/
def toNumber : Value → Option ℚ
  | .int n => some (n : ℚ)
  | .i64 n => some (n : ℚ)
  | .float q => some q
  | .str s => parseFloat s
  | _ => none

/-- Days from the civil (proleptic Gregorian) date to 1970-01-01
(Howard Hinnant's `days_from_civil`, with true floor division). -/
def daysFromCivil (y m d : ℤ) : ℤ :=
  let y := if m ≤ 2 then y - 1 else y
  let era := Int.fdiv y 400
  let yoe := y - era * 400
  let mp := if m > 2 then m - 3 else m + 9
  let doy := Int.fdiv (153 * mp + 2) 5 + d - 1
  let doe := yoe * 365 + Int.fdiv yoe 4 - Int.fdiv yoe 100 + doy
  era * 146097 + doe - 719468

/-- Civil date from days since 1970-01-01 (Hinnant's `civil_from_days`). -/
def civilFromDays (z : ℤ) : ℤ × ℤ × ℤ :=
  let z := z + 719468
  let era := Int.fdiv z 146097
  let doe := z - era * 146097
  let yoe := Int.fdiv (doe - Int.fdiv doe 1460 + Int.fdiv doe 36524 - Int.fdiv doe 146096) 365
  let y := yoe + era * 400
  let doy := doe - (365 * yoe + Int.fdiv yoe 4 - Int.fdiv yoe 100)
  let mp := Int.fdiv (5 * doy + 2) 153
  let d := doy - Int.fdiv (153 * mp + 2) 5 + 1
  let m := if mp < 10 then mp + 3 else mp - 9
  (if m ≤ 2 then y + 1 else y, m, d)

/-- Is `y` a (proleptic Gregorian) leap year, as Go's `time` package decides. -/
def isLeapYear (y : ℤ) : Bool :=
  y % 4 = 0 ∧ (y % 100 ≠ 0 ∨ y % 400 = 0)

/-- Number of days in month `m` of year `y`. -/
def daysInMonth (y m : ℤ) : ℤ :=
  if m = 2 then (if isLeapYear y then 29 else 28)
  else if m = 4 ∨ m = 6 ∨ m = 9 ∨ m = 11 then 30
  else 31

/-- Unix epoch seconds of a validated civil date-time, or `none` when a field
is out of range (Go's `time.Parse` rejects such inputs). -/
def dateTimeToEpoch (y mo d h mi s : ℤ) : Option ℤ :=
  if 1 ≤ mo ∧ mo ≤ 12 ∧ 1 ≤ d ∧ d ≤ daysInMonth y mo ∧
     0 ≤ h ∧ h ≤ 23 ∧ 0 ≤ mi ∧ mi ≤ 59 ∧ 0 ≤ s ∧ s ≤ 59 then
    some (daysFromCivil y mo d * 86400 + h * 3600 + mi * 60 + s)
  else none

/-- Read exactly `n` decimal digits, returning their value and the rest. -/
def readDigits : ℕ → List Char → Option (ℤ × List Char)
  | 0, cs => some (0, cs)
  | _ + 1, [] => none
  | n + 1, c :: cs =>
    if c.isDigit then
      match readDigits n cs with
      | some (v, rest) => some ((c.toNat - '0'.toNat : ℕ) * 10 ^ n + v, rest)
      | none => none
    else none

/-- Consume one expected character. -/
def expectChar (c : Char) : List Char → Option (List Char)
  | c' :: cs => if c' = c then some cs else none
  | [] => none

/-- Parse `YYYY-MM-DD`, returning the date fields and the rest. -/
def parseDatePart (cs : List Char) : Option (ℤ × ℤ × ℤ × List Char) := do
  let (y, cs) ← readDigits 4 cs
  let cs ← expectChar '-' cs
  let (mo, cs) ← readDigits 2 cs
  let cs ← expectChar '-' cs
  let (d, cs) ← readDigits 2 cs
  pure (y, mo, d, cs)

/-- Parse `HH:MM:SS`, returning the time fields and the rest. -/
def parseClockPart (cs : List Char) : Option (ℤ × ℤ × ℤ × List Char) := do
  let (h, cs) ← readDigits 2 cs
  let cs ← expectChar ':' cs
  let (mi, cs) ← readDigits 2 cs
  let cs ← expectChar ':' cs
  let (s, cs) ← readDigits 2 cs
  pure (h, mi, s, cs)

/-- Drop an optional fractional-second part `.digits` (Go's `time.Parse`
accepts a fractional second whenever the layout has seconds; the model
truncates it, since modelled instants are whole seconds). -/
def dropFraction (cs : List Char) : List Char :=
  match cs with
  | '.' :: c :: rest =>
    if c.isDigit then (c :: rest).dropWhile Char.isDigit else cs
  | _ => cs

/-- Parse an RFC 3339 zone suffix: `Z` or `±HH:MM`.  Returns the zone offset
in seconds and the rest. -/
def parseZonePart (cs : List Char) : Option (ℤ × List Char) :=
  match cs with
  | 'Z' :: rest => some (0, rest)
  | c :: rest =>
    if c = '+' ∨ c = '-' then
      match readDigits 2 rest with
      | some (h, rest) =>
        match expectChar ':' rest with
        | some rest =>
          match readDigits 2 rest with
          | some (mi, rest) =>
            if 0 ≤ h ∧ h ≤ 23 ∧ 0 ≤ mi ∧ mi ≤ 59 then
              some ((if c = '-' then -1 else 1) * (h * 3600 + mi * 60), rest)
            else none
          | none => none
        | none => none
      | none => none
    else none
  | [] => none

/-- Parse a string against layout `time.RFC3339` / `time.RFC3339Nano`
(`2006-01-02T15:04:05Z07:00`), to Unix seconds. -/
def parseRFC3339 (cs : List Char) : Option ℤ := do
  let (y, mo, d, cs) ← parseDatePart cs
  let cs ← expectChar 'T' cs
  let (h, mi, s, cs) ← parseClockPart cs
  let cs := dropFraction cs
  let (off, cs) ← parseZonePart cs
  if cs.isEmpty then
    let e ← dateTimeToEpoch y mo d h mi s
    pure (e - off)
  else none

/-- Parse a string against layout `2006-01-02 15:04:05` (UTC), to Unix
seconds. -/
def parseDateTimeLayout (cs : List Char) : Option ℤ := do
  let (y, mo, d, cs) ← parseDatePart cs
  let cs ← expectChar ' ' cs
  let (h, mi, s, cs) ← parseClockPart cs
  let cs := dropFraction cs
  if cs.isEmpty then dateTimeToEpoch y mo d h mi s else none

/-- Parse a string against layout `2006-01-02` (midnight UTC), to Unix
seconds. -/
def parseDateLayout (cs : List Char) : Option ℤ := do
  let (y, mo, d, cs) ← parseDatePart cs
  if cs.isEmpty then dateTimeToEpoch y mo d 0 0 0 else none

/-- Parse a string against layout `15:04:05`; fields missing from the layout
default as in Go's `time.Parse` (January 1, year 0). -/
def parseClockLayout (cs : List Char) : Option ℤ := do
  let (h, mi, s, cs) ← parseClockPart cs
  let cs := dropFraction cs
  if cs.isEmpty then dateTimeToEpoch 0 1 1 h mi s else none

/-- The string leg of `toTime`: try the source's format list in order
(`RFC3339`, `RFC3339Nano`, `2006-01-02 15:04:05`, `2006-01-02`, `15:04:05`);
first match wins.  The two RFC 3339 layouts accept the same modelled strings,
so a single attempt covers both. -/
def parseTimeString (s : String) : Option ℤ :=
  let cs := s.toList
  match parseRFC3339 cs with
  | some t => some t
  | none =>
    match parseDateTimeLayout cs with
    | some t => some t
    | none =>
      match parseDateLayout cs with
      | some t => some t
      | none => parseClockLayout cs

/-- `toTime` from `condition.go`: a `time.Time` passes through, a string is
tried against the format list, an `int64` is Unix epoch seconds, everything
else fails (in particular Go `int` does not convert). -/
def toTime : Value → Option ℤ
  | .time t => some t
  | .str s => parseTimeString s
  | .i64 n => some n
  | _ => none

/-- Left-pad a numeral with zeros to width `w`. -/
def padNum (w : ℕ) (n : ℤ) : String :=
  let s := ToString.toString n.natAbs
  let pad := String.mk (List.replicate (w - s.length) '0')
  (if n < 0 then "-" else "") ++ pad ++ s

/-- Render a modelled float the way Go's `%v` renders a `float64` of moderate
magnitude: integers without a point, finite decimals with their shortest
fractional digits.  (Values whose reduced denominator is not a power of ten
cannot come out of `parseFloat`; they get an exact `num/den` rendering, a
deliberate model choice.  Go's switch to exponent notation for magnitudes
outside `[1e-4, 1e21)` is outside the modelled range.) -/
def showFloat (q : ℚ) : String :=
  if q.den = 1 then ToString.toString q.num
  else
    match (List.range 40).find? (fun k => (10 : ℕ) ^ k % q.den = 0) with
    | some k =>
      let scaled : ℤ := q.num * ((10 : ℕ) ^ k / q.den : ℕ)
      let ip : ℤ := scaled.natAbs / 10 ^ k
      let fracDigits := padNum k (scaled.natAbs % 10 ^ k : ℕ)
      let fracTrimmed := String.mk (fracDigits.toList.reverse.dropWhile (· = '0')).reverse
      (if q.num < 0 then "-" else "") ++ ToString.toString ip ++ "." ++ fracTrimmed
    | none => ToString.toString q.num ++ "/" ++ ToString.toString (q.den : ℤ)

/-- Render a modelled instant the way `time.Time.String` does for a
whole-second UTC time: `YYYY-MM-DD HH:MM:SS +0000 UTC`. -/
def showTime (t : ℤ) : String :=
  let days := Int.fdiv t 86400
  let secs := t - days * 86400
  let ymd := civilFromDays days
  padNum 4 ymd.1 ++ "-" ++ padNum 2 ymd.2.1 ++ "-" ++ padNum 2 ymd.2.2 ++ " " ++
    padNum 2 (Int.fdiv secs 3600) ++ ":" ++ padNum 2 (Int.fdiv secs 60 % 60) ++ ":" ++
    padNum 2 (secs % 60) ++ " +0000 UTC"

/-- Insert a map entry into a key-sorted list (Go's `%v` prints map keys in
sorted order). -/
def insertSorted (p : String × String) : List (String × String) → List (String × String)
  | [] => [p]
  | q :: rest => if p.1 ≤ q.1 then p :: q :: rest else q :: insertSorted p rest

/-- Join strings with a separator. -/
def joinSep (sep : String) : List String → String
  | [] => ""
  | [x] => x
  | x :: rest => x ++ sep ++ joinSep sep rest

mutual
/-- `toString` from `condition.go`: nil → `""`, a string passes through, a
`fmt.Stringer` (here: `time.Time`) uses its own rendering, everything else
uses `fmt.Sprintf("%v", ·)`: `true`/`false` for bools, decimal for integers,
`showFloat` for floats, `[a b c]` for slices, `map[k:v …]` with sorted keys
for maps. -/
def toString : Value → String
  | .null => ""
  | .str s => s
  | .time t => showTime t
  | .bool b => if b then "true" else "false"
  | .int n => ToString.toString n
  | .i64 n => ToString.toString n
  | .float q => showFloat q
  | .list xs => "[" ++ joinSep " " (toStringList xs) ++ "]"
  | .map m => "map[" ++ joinSep " " (((toStringMap m).foldr insertSorted []).map (fun p => p.1 ++ ":" ++ p.2)) ++ "]"

def toStringList : List Value → List String
  | [] => []
  | v :: vs => toString v :: toStringList vs

def toStringMap : List (String × Value) → List (String × String)
  | [] => []
  | (k, v) :: rest => (k, toString v) :: toStringMap rest
end

mutual
/-- Model of `reflect.DeepEqual` on the modelled value space: structural
equality; values of distinct Go dynamic types (distinct constructors) are
never deep-equal — in particular `int 5` and `i64 5`, or `int 5` and
`float 5`, are not. -/
def deepEqual : Value → Value → Bool
  | .null, .null => true
  | .bool a, .bool b => a = b
  | .str a, .str b => a = b
  | .int a, .int b => a = b
  | .i64 a, .i64 b => a = b
  | .float a, .float b => a = b
  | .time a, .time b => a = b
  | .list a, .list b => deepEqualList a b
  | .map a, .map b => deepEqualMap a b
  | _, _ => false

def deepEqualList : List Value → List Value → Bool
  | [], [] => true
  | a :: as_, b :: bs => deepEqual a b && deepEqualList as_ bs
  | _, _ => false

def deepEqualMap : List (String × Value) → List (String × Value) → Bool
  | [], [] => true
  | (ka, va) :: as_, (kb, vb) :: bs => ka = kb && deepEqual va vb && deepEqualMap as_ bs
  | _, _ => false
end

/-- `isEqual` from `condition.go`: nil/nil → true, exactly one nil → false,
deep equality first, else numeric equality when both coerce, else equality of
the string coercions. -/
def isEqual (v1 v2 : Value) : Bool :=
  if valueIsNil v1 ∧ valueIsNil v2 then true
  else if valueIsNil v1 ∨ valueIsNil v2 then false
  else if deepEqual v1 v2 then true
  else
    match toNumber v1, toNumber v2 with
    | some n1, some n2 => n1 = n2
    | _, _ => toString v1 = toString v2

/-- Lexicographic order on character lists: Go's `s1 < s2` on strings
(byte-wise comparison, which on valid UTF-8 equals code-point-wise
comparison). -/
def strLt : List Char → List Char → Bool
  | [], [] => false
  | [], _ :: _ => true
  | _ :: _, [] => false
  | a :: as_, b :: bs => if a < b then true else if b < a then false else strLt as_ bs

/-- `compareValues` from `condition.go`: numeric comparison when both sides
coerce to numbers; else temporal comparison when both sides coerce to
instants; else lexicographic comparison of the string coercions.  Returns
-1, 0 or 1. -/
def compareValues (v1 v2 : Value) : ℤ :=
  match toNumber v1, toNumber v2 with
  | some n1, some n2 => if n1 < n2 then -1 else if n1 > n2 then 1 else 0
  | _, _ =>
    match toTime v1, toTime v2 with
    | some t1, some t2 => if t1 < t2 then -1 else if t1 > t2 then 1 else 0
    | _, _ =>
      let s1 := toString v1
      let s2 := toString v2
      if strLt s1.toList s2.toList then -1
      else if strLt s2.toList s1.toList then 1 else 0

/-- Does `needle` occur as a contiguous run starting at some suffix of the
haystack? -/
def hasSubstrAux (needle : List Char) : List Char → Bool
  | [] => needle.isEmpty
  | c :: rest => needle.isPrefixOf (c :: rest) || hasSubstrAux needle rest

/-- Substring test on character lists, modelling Go's `strings.Contains`
(byte-level and character-level substring coincide on valid UTF-8). -/
def hasSubstr (haystack needle : String) : Bool :=
  hasSubstrAux needle.toList haystack.toList

/-- `isIn` from `condition.go`: a slice collection contains the value iff some
element is `isEqual` to it; a map collection iff some key is; a string
collection iff the string coercion of the value is a substring of it; a nil
or other-kind collection contains nothing.  (Modelled map keys are strings.) -/
def isIn (v collection : Value) : Bool :=
  match collection with
  | .null => false
  | .list xs => xs.any (fun x => isEqual v x)
  | .map m => m.any (fun kv => isEqual v (.str kv.1))
  | .str s => hasSubstr s (toString v)
  | _ => false

/-- `contains` from `condition.go`: false when either side is nil, else a
substring test on the string coercions. -/
def containsVal (haystack needle : Value) : Bool :=
  if valueIsNil haystack ∨ valueIsNil needle then false
  else hasSubstr (toString haystack) (toString needle)

/-- Matcher for the anchored pattern `like` builds: `%` (compiled to `.*`)
matches any run, `_` (compiled to `.`) and a literal `.` of the pattern match
any single character, every other character matches itself.  (Patterns
containing further regex metacharacters are outside the modelled pattern
space.) -/
def likeMatch : List Char → List Char → Bool
  | [], [] => true
  | [], _ :: _ => false
  | '%' :: ps, [] => likeMatch ps []
  | '%' :: ps, c :: s => likeMatch ps (c :: s) || likeMatch ('%' :: ps) s
  | p :: ps, c :: s => (p = '_' || p = '.' || p = c) && likeMatch ps s
  | _ :: _, [] => false
  termination_by ps s => (ps.length, s.length)

/-- `like` from `condition.go`: false when either side is nil; lower-case both
sides first when case-insensitive; then match the SQL pattern anchored over
the whole string. -/
def like (v pattern : Value) (caseInsensitive : Bool) : Bool :=
  if valueIsNil v ∨ valueIsNil pattern then false
  else
    let str := toString v
    let pat := toString pattern
    let str := if caseInsensitive then str.toLower else str
    let pat := if caseInsensitive then pat.toLower else pat
    likeMatch pat.toList str.toList

/-- `startsWith` from `condition.go`. -/
def startsWith (v pre : Value) : Bool :=
  if valueIsNil v ∨ valueIsNil pre then false
  else (toString v).startsWith (toString pre)

/-- `endsWith` from `condition.go`. -/
def endsWith (v suf : Value) : Bool :=
  if valueIsNil v ∨ valueIsNil suf then false
  else (toString v).endsWith (toString suf)

/-- `between` from `condition.go`: the bounds argument must be a 2-element
slice `[min, max]`; inclusive on both ends via `compareValues`. -/
def between (v bounds : Value) : Bool :=
  if valueIsNil v ∨ valueIsNil bounds then false
  else
    match bounds with
    | .list [lo, hi] => compareValues v lo ≥ 0 && compareValues v hi ≤ 0
    | _ => false

/-- A custom operator validator `func(fieldValue, expectedValue interface{})
bool`; a `none` result models the validator panicking at that input (the
engine recovers such a panic). -/
def CustomOperatorValidator : Type := Value → Value → Option Bool

/-- The `customOperators` map, modelled as an association list consulted
through `lookupOperator` (first binding wins, and `registryStore` keeps keys
unique, so list lookup is exactly map lookup). -/
def Registry : Type := List (String × CustomOperatorValidator)

/-- Registry lookup, `validator, ok := customOperators[op]`. -/
def lookupOperator : Registry → String → Option CustomOperatorValidator
  | [], _ => none
  | (o, f) :: rest, op => if o = op then some f else lookupOperator rest op

/-- The map store `customOperators[operator] = validator` (overwrite). -/
def registryStore (reg : Registry) (op : String) (f : CustomOperatorValidator) : Registry :=
  (op, f) :: reg.filter (fun p => p.1 ≠ op)

/-- `RegisterCustomOperator` from `condition.go`: panics (modelled as `none`)
exactly when the supplied validator is nil (modelled as `Option.none`);
otherwise stores the validator under the identifier, built-in or not — the
source performs no reserved-identifier check. -/
def RegisterCustomOperator (reg : Registry) (op : String) :
    Option CustomOperatorValidator → Option Registry
  | none => none
  | some f => some (registryStore reg op f)

/-- `UnregisterCustomOperator` from `condition.go`: delete from the map,
no-op when absent. -/
def UnregisterCustomOperator (reg : Registry) (op : String) : Registry :=
  reg.filter (fun p => p.1 ≠ op)

/-- `GetRegisteredCustomOperators` from `condition.go`: the identifiers
currently registered (copy-out). -/
def GetRegisteredCustomOperators (reg : Registry) : List String :=
  reg.map (fun p => p.1)

/-- A data record `map[string]interface{}`, as an association list read only
through `dataLookup` (callers never build duplicate keys through the map
API; lookup takes the first binding, so list lookup is exactly map lookup). -/
def Data : Type := List (String × Value)

/-- `v, exists := data[key]`: `some v` when present (`v` may be `Value.null`,
a present nil entry), `none` when absent (Go then yields the zero value nil
with `exists = false`). -/
def dataLookup : Data → String → Option Value
  | [], _ => none
  | (k, v) :: rest, key => if k = key then some v else dataLookup rest key

/-- The recovered invocation of a custom validator: the source wraps the call
in `defer … recover()`, so a panic (`none`) makes `evalSingleCondition`
return its zero value `false`; a normal return passes through. -/
def invokeValidator (f : CustomOperatorValidator) (fieldValue expectedValue : Value) : Bool :=
  (f fieldValue expectedValue).getD false

/-- `evalSingleCondition` from `condition.go`.  First the six existence/state
operators (well-defined even for an absent key); then, when the key is
absent, a registry lookup (the validator receives nil for the field) with
`false` when nothing is registered; then the built-in dispatch switch, whose
default case is again registry-then-`false`. -/
def evalSingleCondition (reg : Registry) (key : String) (op : String)
    (value : Value) (data : Data) : Bool :=
  let fv := dataLookup data key
  let v := fv.getD Value.null
  if op = "isnull" then !fv.isSome || valueIsNil v
  else if op = "isnotnull" then fv.isSome && !valueIsNil v
  else if op = "isempty" then isEmpty v
  else if op = "isnotempty" then !isEmpty v
  else if op = "istrue" then toBool v
  else if op = "isfalse" then !toBool v
  else if !fv.isSome then
    match lookupOperator reg op with
    | some f => invokeValidator f v value
    | none => false
  else if op = "==" then isEqual v value
  else if op = "!=" then !isEqual v value
  else if op = ">" then compareValues v value > 0
  else if op = ">=" then compareValues v value ≥ 0
  else if op = "<" then compareValues v value < 0
  else if op = "<=" then compareValues v value ≤ 0
  else if op = "in" then isIn v value
  else if op = "nin" then !isIn v value
  else if op = "contains" then containsVal v value
  else if op = "ncontains" then !containsVal v value
  else if op = "like" then like v value false
  else if op = "ilike" then like v value true
  else if op = "nlike" then !like v value false
  else if op = "startswith" then startsWith v value
  else if op = "endswith" then endsWith v value
  else if op = "between" then between v value
  else if op = "notbetween" then !between v value
  else
    match lookupOperator reg op with
    | some f => invokeValidator f v value
    | none => false

/-- The `Conditions` struct: `logic`, `children`, `key`, `operator`, `value`
(a single constructor records all five fields, exactly the Go struct). -/
inductive Conditions : Type where
  | mk : (logic : String) → (children : List Conditions) → (key : String) →
      (operator : String) → (value : Value) → Conditions

def Conditions.logic : Conditions → String
  | .mk l _ _ _ _ => l

def Conditions.children : Conditions → List Conditions
  | .mk _ cs _ _ _ => cs

def Conditions.key : Conditions → String
  | .mk _ _ k _ _ => k

def Conditions.operator : Conditions → String
  | .mk _ _ _ o _ => o

def Conditions.value : Conditions → Value
  | .mk _ _ _ _ v => v

mutual
/-- `EvaluateCondition` from `condition.go`: a node with non-empty `logic`
and non-empty `children` dispatches on the logic (`AND` folds with
short-circuit on false, `OR` with short-circuit on true; any other non-empty
logic falls out of the switch); then a node with non-empty `key` and
`operator` is a single condition; anything else evaluates to true. -/
def EvaluateCondition (reg : Registry) (cond : Conditions) (data : Data) : Bool :=
  match cond with
  | .mk logic children key op value =>
    if logic ≠ "" ∧ children.isEmpty = false then
      if logic = "AND" then evalChildrenAnd reg children data
      else if logic = "OR" then evalChildrenOr reg children data
      else if key ≠ "" ∧ op ≠ "" then evalSingleCondition reg key op value data
      else true
    else if key ≠ "" ∧ op ≠ "" then evalSingleCondition reg key op value data
    else true

/-- The AND loop of `EvaluateCondition`: return false at the first false
child. -/
def evalChildrenAnd (reg : Registry) (children : List Conditions) (data : Data) : Bool :=
  match children with
  | [] => true
  | c :: rest =>
    if EvaluateCondition reg c data then evalChildrenAnd reg rest data else false

/-- The OR loop of `EvaluateCondition`: return true at the first true
child. -/
def evalChildrenOr (reg : Registry) (children : List Conditions) (data : Data) : Bool :=
  match children with
  | [] => false
  | c :: rest =>
    if EvaluateCondition reg c data then true else evalChildrenOr reg rest data
end

mutual
/-- The `ConditionGroup` struct: an ordered list of links. -/
inductive ConditionGroup : Type where
  | mk : (conditions : List ConditionWithLogic) → ConditionGroup

/-- The `ConditionWithLogic` struct: `key`, `operator`, `value`, optional
nested `group`, and the `next_logic` connective to the following link. -/
inductive ConditionWithLogic : Type where
  | mk : (key : String) → (operator : String) → (value : Value) →
      (group : Option ConditionGroup) → (nextLogic : String) → ConditionWithLogic
end

def ConditionGroup.conditions : ConditionGroup → List ConditionWithLogic
  | .mk cs => cs

def ConditionWithLogic.key : ConditionWithLogic → String
  | .mk k _ _ _ _ => k

def ConditionWithLogic.operator : ConditionWithLogic → String
  | .mk _ o _ _ _ => o

def ConditionWithLogic.value : ConditionWithLogic → Value
  | .mk _ _ v _ _ => v

def ConditionWithLogic.group : ConditionWithLogic → Option ConditionGroup
  | .mk _ _ _ g _ => g

def ConditionWithLogic.nextLogic : ConditionWithLogic → String
  | .mk _ _ _ _ nl => nl

/-- The connective application of `EvaluateConditionGroup`'s loop: the switch
on the previous link's `NextLogic` (`AND` → and, `OR` → or, anything else —
including the empty string — defaults to and). -/
def applyNextLogic (nextLogic : String) (result current : Bool) : Bool :=
  if nextLogic = "AND" then result && current
  else if nextLogic = "OR" then result || current
  else result && current

mutual
/-- `EvaluateConditionGroup` from `condition.go`: an empty chain is true;
otherwise evaluate the first link and fold the remaining links left-to-right,
each combined with the accumulated result through the *previous* link's
`next_logic`.  Every link is evaluated (the loop has no early exit). -/
def EvaluateConditionGroup (reg : Registry) (group : ConditionGroup) (data : Data) : Bool :=
  match group with
  | .mk [] => true
  | .mk (c :: rest) =>
    chainLoop reg (evaluateConditionWithLogic reg c data) c rest data

/-- The `for i := 1; …` loop of `EvaluateConditionGroup`: `prev` is
`group.Conditions[i-1]`. -/
def chainLoop (reg : Registry) (result : Bool) (prev : ConditionWithLogic)
    (rest : List ConditionWithLogic) (data : Data) : Bool :=
  match rest with
  | [] => result
  | c :: rest' =>
    let current := evaluateConditionWithLogic reg c data
    chainLoop reg (applyNextLogic prev.nextLogic result current) c rest' data

/-- `evaluateConditionWithLogic` from `condition.go`: a link with a non-nil
`group` evaluates the nested chain, otherwise the single condition. -/
def evaluateConditionWithLogic (reg : Registry) (condition : ConditionWithLogic) (data : Data) : Bool :=
  match condition with
  | .mk key op value grp _ =>
    match grp with
    | some g => EvaluateConditionGroup reg g data
    | none => evalSingleCondition reg key op value data
end

mutual
/-- `ConvertToConditionGroup` from `condition.go`: a node with non-empty
`key` becomes a single-link chain (regardless of its other fields — the
source tests `Key` first); a key-less node with no children becomes the empty
chain; otherwise each child becomes a link carrying the group's `logic` as
`next_logic`, except the last, which carries none. -/
def ConvertToConditionGroup (conditions : Conditions) : ConditionGroup :=
  match conditions with
  | .mk logic children key op value =>
    if key ≠ "" then .mk [.mk key op value none ""]
    else if children.isEmpty then .mk []
    else .mk (convertChildren logic children)

/-- The child loop of `ConvertToConditionGroup`: all children but the last
get `nextLogic = logic`; a child with non-empty key becomes a leaf link, any
other child a recursively converted group link. -/
def convertChildren (logic : String) (children : List Conditions) : List ConditionWithLogic :=
  match children with
  | [] => []
  | [child] =>
    [match child with
     | .mk _ _ key op value =>
       if key ≠ "" then .mk key op value none ""
       else .mk "" "" Value.null (some (ConvertToConditionGroup child)) ""]
  | child :: c' :: rest =>
    (match child with
     | .mk _ _ key op value =>
       if key ≠ "" then .mk key op value none logic
       else .mk "" "" Value.null (some (ConvertToConditionGroup child)) logic) ::
    convertChildren logic (c' :: rest)
end

/-- One converted child with its assigned `next_logic` (the link
`convertChildren` builds for `child`; `convertChildren_eq` below relates the
two). -/
def convertChild (nextLogic : String) (child : Conditions) : ConditionWithLogic :=
  match child with
  | .mk _ _ key op value =>
    if key ≠ "" then .mk key op value none nextLogic
    else .mk "" "" Value.null (some (ConvertToConditionGroup child)) nextLogic

/-- The dynamic argument of `EvaluateFlexibleCondition`: the four accepted
dynamic types, plus `other` for every other `interface{}` value (nil, a
string, a map, …), which the source's type switch sends to `default`. -/
inductive FlexibleConditions : Type where
  | conds : Conditions → FlexibleConditions
  | condsRef : Conditions → FlexibleConditions
  | group : ConditionGroup → FlexibleConditions
  | groupRef : ConditionGroup → FlexibleConditions
  | other : Value → FlexibleConditions

/-- `EvaluateFlexibleCondition` from `condition.go`: dispatch on the dynamic
type (`Conditions`, `*Conditions`, `ConditionGroup`, `*ConditionGroup`);
every other dynamic type returns false. -/
def EvaluateFlexibleCondition (reg : Registry) (conditions : FlexibleConditions) (data : Data) : Bool :=
  match conditions with
  | .conds c => EvaluateCondition reg c data
  | .condsRef c => EvaluateCondition reg c data
  | .group g => EvaluateConditionGroup reg g data
  | .groupRef g => EvaluateConditionGroup reg g data
  | .other _ => false

/-- A record of one `evalSingleCondition` invocation (the only place a
custom validator — the engine's fault surface — can run). -/
structure LeafCall : Type where
  key : String
  op : String
  value : Value

mutual
/-- `EvaluateCondition` instrumented with the list of `evalSingleCondition`
invocations it performs, in order; the boolean component follows the source's
control flow exactly (`evalCondTrace_fst` proves it equal to
`EvaluateCondition`). -/
def EvaluateConditionTrace (reg : Registry) (cond : Conditions) (data : Data) :
    Bool × List LeafCall :=
  match cond with
  | .mk logic children key op value =>
    if logic ≠ "" ∧ children.isEmpty = false then
      if logic = "AND" then evalChildrenAndTrace reg children data
      else if logic = "OR" then evalChildrenOrTrace reg children data
      else if key ≠ "" ∧ op ≠ "" then
        (evalSingleCondition reg key op value data, [⟨key, op, value⟩])
      else (true, [])
    else if key ≠ "" ∧ op ≠ "" then
      (evalSingleCondition reg key op value data, [⟨key, op, value⟩])
    else (true, [])

/-- Instrumented AND loop: stops at the first false child; later children
are never evaluated and contribute no leaf invocations. -/
def evalChildrenAndTrace (reg : Registry) (children : List Conditions) (data : Data) :
    Bool × List LeafCall :=
  match children with
  | [] => (true, [])
  | c :: rest =>
    let r := EvaluateConditionTrace reg c data
    if r.1 then
      let r' := evalChildrenAndTrace reg rest data
      (r'.1, r.2 ++ r'.2)
    else (false, r.2)

/-- Instrumented OR loop: stops at the first true child. -/
def evalChildrenOrTrace (reg : Registry) (children : List Conditions) (data : Data) :
    Bool × List LeafCall :=
  match children with
  | [] => (false, [])
  | c :: rest =>
    let r := EvaluateConditionTrace reg c data
    if r.1 then (true, r.2)
    else
      let r' := evalChildrenOrTrace reg rest data
      (r'.1, r.2 ++ r'.2)
end

mutual
/-- `EvaluateConditionGroup` instrumented with its `evalSingleCondition`
invocations: the loop visits every link unconditionally. -/
def EvaluateConditionGroupTrace (reg : Registry) (group : ConditionGroup) (data : Data) :
    Bool × List LeafCall :=
  match group with
  | .mk [] => (true, [])
  | .mk (c :: rest) =>
    let r := evaluateConditionWithLogicTrace reg c data
    chainLoopTrace reg r.1 r.2 c rest data

/-- Instrumented chain loop: every link is evaluated and its leaf
invocations appended, whatever the accumulated result. -/
def chainLoopTrace (reg : Registry) (result : Bool) (trace : List LeafCall)
    (prev : ConditionWithLogic) (rest : List ConditionWithLogic) (data : Data) :
    Bool × List LeafCall :=
  match rest with
  | [] => (result, trace)
  | c :: rest' =>
    let r := evaluateConditionWithLogicTrace reg c data
    chainLoopTrace reg (applyNextLogic prev.nextLogic result r.1) (trace ++ r.2) c rest' data

/-- Instrumented `evaluateConditionWithLogic`. -/
def evaluateConditionWithLogicTrace (reg : Registry) (condition : ConditionWithLogic) (data : Data) :
    Bool × List LeafCall :=
  match condition with
  | .mk key op value grp _ =>
    match grp with
    | some g => EvaluateConditionGroupTrace reg g data
    | none => (evalSingleCondition reg key op value data, [⟨key, op, value⟩])
end

mutual
/-- Well-formedness of a condition tree, the hypothesis of the conversion
claim: every node is either a Group — `logic` is `AND` or `OR`, `children`
non-empty and themselves well-formed, and no `key` (the tagged-variant
reading: a Group carries no Leaf fields) — or a Leaf — non-empty `key` and
`operator` and no children. -/
def WellFormed (cond : Conditions) : Bool :=
  match cond with
  | .mk logic children key op _ =>
    (key = "" && (logic = "AND" || logic = "OR") && !children.isEmpty &&
      allWellFormed children) ||
    (key ≠ "" && op ≠ "" && children.isEmpty)

def allWellFormed : List Conditions → Bool
  | [] => true
  | c :: rest => WellFormed c && allWellFormed rest
end

/-- The six existence/state operators, dispatched by the first switch of
`evalSingleCondition` before the key-presence check. -/
def existenceOperators : List String :=
  ["isnull", "isnotnull", "isempty", "isnotempty", "istrue", "isfalse"]

/-- Every built-in operator identifier (the constants of `condition.go`). -/
def builtinOperators : List String :=
  existenceOperators ++
    ["==", "!=", ">", ">=", "<", "<=", "in", "nin", "contains", "ncontains",
     "like", "ilike", "nlike", "startswith", "endswith", "between", "notbetween"]

/-- The sign of a rational. -/
def ratSign (q : ℚ) : ℤ :=
  if q < 0 then -1 else if 0 < q then 1 else 0

/-- C7.  `compareValues` follows the fixed coercion tie-break order: when
both sides coerce to numbers the result is the sign of their numeric
difference; otherwise, when both sides coerce to temporal instants, the
result is their temporal order; otherwise the result is the lexicographic
order of the two string coercions.  In particular
`compareValues "5" "10" < 0` (numeric) and `compareValues "b" "a" > 0`
(lexicographic). -/
theorem compareValues_coercion_order :
    (∀ v1 v2 n1 n2, toNumber v1 = some n1 → toNumber v2 = some n2 →
      compareValues v1 v2 = ratSign (n1 - n2))
    ∧ (∀ v1 v2 t1 t2, (toNumber v1 = none ∨ toNumber v2 = none) →
        toTime v1 = some t1 → toTime v2 = some t2 →
        compareValues v1 v2 = (if t1 < t2 then -1 else if t2 < t1 then 1 else 0))
    ∧ (∀ v1 v2, (toNumber v1 = none ∨ toNumber v2 = none) →
        (toTime v1 = none ∨ toTime v2 = none) →
        compareValues v1 v2 =
          (if strLt (toString v1).toList (toString v2).toList then -1
           else if strLt (toString v2).toList (toString v1).toList then 1 else 0))
    ∧ compareValues (.str "5") (.str "10") < 0
    ∧ compareValues (.str "b") (.str "a") > 0 := by
  refine ⟨?_, ?_, ?_, by decide, by decide⟩
  · intro v1 v2 n1 n2 h1 h2
    simp only [compareValues, h1, h2, ratSign, gt_iff_lt]
    rcases lt_trichotomy n1 n2 with h | h | h
    · simp [h, sub_neg.mpr h, asymm h, not_lt.mpr (le_of_lt h)]
    · simp [h, lt_irrefl]
    · simp [sub_neg, sub_pos, h, asymm h, not_lt.mpr (le_of_lt h)]
  · intro v1 v2 t1 t2 hn h1 h2
    rcases hn with hn | hn
    · cases hv : toNumber v2 <;> simp [compareValues, hn, hv, h1, h2, gt_iff_lt]
    · cases hv : toNumber v1 <;> simp [compareValues, hn, hv, h1, h2, gt_iff_lt]
  · intro v1 v2 hn ht
    rcases h1 : toNumber v1 with _ | n1 <;> rcases h2 : toNumber v2 with _ | n2 <;>
      rcases h3 : toTime v1 with _ | t1 <;> rcases h4 : toTime v2 with _ | t2 <;>
        simp_all [compareValues]

/-- Witness for C7: concrete instances of the three coercion branches. -/
theorem compareValues_coercion_order_witness :
    compareValues (.int 25) (.int 18) = ratSign ((25 : ℚ) - 18)
    ∧ compareValues (.time 3) (.time 7) = -1
    ∧ compareValues (.bool true) (.bool false) = 1 :=
  ⟨compareValues_coercion_order.1 (.int 25) (.int 18) 25 18 (by decide) (by decide),
   (compareValues_coercion_order.2.1 (.time 3) (.time 7) 3 7 (Or.inl rfl) rfl rfl).trans
     (by decide),
   (compareValues_coercion_order.2.2.1 (.bool true) (.bool false) (Or.inl rfl)
     (Or.inl rfl)).trans (by decide)⟩

/-- C8.  A node that is neither a valid Group (`logic` set and `children`
non-empty) nor a valid Leaf (`key` and `operator` both non-empty) evaluates
to true, for every registry and data record. -/
theorem degenerate_node_evaluates_true (reg : Registry) (logic : String)
    (children : List Conditions) (key op : String) (value : Value) (data : Data)
    (h1 : logic = "" ∨ children = []) (h2 : key = "" ∨ op = "") :
    EvaluateCondition reg (.mk logic children key op value) data = true := by
  have hg : ¬ (logic ≠ "" ∧ children.isEmpty = false) := by
    rcases h1 with rfl | rfl <;> simp
  have hl : ¬ (key ≠ "" ∧ op ≠ "") := by
    rcases h2 with rfl | rfl <;> simp
  simp only [EvaluateCondition]
  rw [if_neg hg, if_neg hl]

/-- Witness for C8: an empty node, and a node with children but no logic. -/
theorem degenerate_node_evaluates_true_witness :
    EvaluateCondition [] (.mk "" [] "" "" .null) [] = true
    ∧ EvaluateCondition [] (.mk "" [.mk "" [] "k" "istrue" .null] "" "" .null)
        [("k", .bool false)] = true :=
  ⟨degenerate_node_evaluates_true [] "" [] "" "" .null [] (Or.inl rfl) (Or.inl rfl),
   degenerate_node_evaluates_true [] "" [.mk "" [] "k" "istrue" .null] "" "" .null
     [("k", .bool false)] (Or.inl rfl) (Or.inl rfl)⟩

/-- C10.  `EvaluateFlexibleCondition` returns false on every argument whose
dynamic type is none of the four accepted condition types (nil, a string, a
map, …); it never treats such an argument as a degenerate true node. -/
theorem flexible_unknown_type_false :
    ∀ (reg : Registry) (v : Value) (data : Data),
      EvaluateFlexibleCondition reg (.other v) data = false := by
  intro reg v data
  rfl

/-- An operator outside the built-in set differs from every built-in
identifier. -/
theorem not_builtin_ne (op : String) (hmem : op ∉ builtinOperators) :
    op ≠ "isnull" ∧ op ≠ "isnotnull" ∧ op ≠ "isempty" ∧ op ≠ "isnotempty"
    ∧ op ≠ "istrue" ∧ op ≠ "isfalse" ∧ op ≠ "==" ∧ op ≠ "!=" ∧ op ≠ ">"
    ∧ op ≠ ">=" ∧ op ≠ "<" ∧ op ≠ "<=" ∧ op ≠ "in" ∧ op ≠ "nin"
    ∧ op ≠ "contains" ∧ op ≠ "ncontains" ∧ op ≠ "like" ∧ op ≠ "ilike"
    ∧ op ≠ "nlike" ∧ op ≠ "startswith" ∧ op ≠ "endswith" ∧ op ≠ "between"
    ∧ op ≠ "notbetween" := by
  refine ⟨?_, ?_, ?_, ?_, ?_, ?_, ?_, ?_, ?_, ?_, ?_, ?_, ?_, ?_, ?_, ?_, ?_,
    ?_, ?_, ?_, ?_, ?_, ?_⟩ <;>
    (intro h; subst h; exact hmem (by decide))

/-- An operator outside the existence/state set differs from each of the
six. -/
theorem not_existence_ne (op : String) (hmem : op ∉ existenceOperators) :
    op ≠ "isnull" ∧ op ≠ "isnotnull" ∧ op ≠ "isempty" ∧ op ≠ "isnotempty"
    ∧ op ≠ "istrue" ∧ op ≠ "isfalse" := by
  refine ⟨?_, ?_, ?_, ?_, ?_, ?_⟩ <;> (intro h; subst h; exact hmem (by decide))

/-- C6.  Absent-key semantics of `evalSingleCondition`: when the key is not
in the data record, the six existence/state operators are still evaluated
(`isnull` true, `isnotnull` false, `isempty` true, `isnotempty` false,
`istrue` false, `isfalse` true); any other operator with a registered
validator invokes it with field value nil and the condition's value and
returns its boolean; any other operator without a registered validator
yields false. -/
theorem absent_key_semantics (reg : Registry) (key : String) (value : Value)
    (data : Data) (habs : dataLookup data key = none) :
    (evalSingleCondition reg key "isnull" value data = true
     ∧ evalSingleCondition reg key "isnotnull" value data = false
     ∧ evalSingleCondition reg key "isempty" value data = true
     ∧ evalSingleCondition reg key "isnotempty" value data = false
     ∧ evalSingleCondition reg key "istrue" value data = false
     ∧ evalSingleCondition reg key "isfalse" value data = true)
    ∧ (∀ op f b, op ∉ existenceOperators → lookupOperator reg op = some f →
        f Value.null value = some b →
        evalSingleCondition reg key op value data = b)
    ∧ (∀ op, op ∉ existenceOperators → lookupOperator reg op = none →
        evalSingleCondition reg key op value data = false) := by
  refine ⟨?_, ?_, ?_⟩
  · simp [evalSingleCondition, habs, valueIsNil, isEmpty, toBool]
  · intro op f b hmem hreg hf
    obtain ⟨h1, h2, h3, h4, h5, h6⟩ := not_existence_ne op hmem
    simp [evalSingleCondition, habs, h1, h2, h3, h4, h5, h6, hreg,
      invokeValidator, hf]
  · intro op hmem hreg
    obtain ⟨h1, h2, h3, h4, h5, h6⟩ := not_existence_ne op hmem
    simp [evalSingleCondition, habs, h1, h2, h3, h4, h5, h6, hreg]

/-- Witness for C6: an empty data record, a custom operator that reports
whether its field argument is nil, and the unregistered fallback. -/
theorem absent_key_semantics_witness :
    dataLookup [] "k" = none
    ∧ evalSingleCondition [("myop", fun fv _ => some (valueIsNil fv))] "k"
        "isnull" .null [] = true
    ∧ evalSingleCondition [("myop", fun fv _ => some (valueIsNil fv))] "k"
        "myop" (.int 1) [] = true
    ∧ evalSingleCondition [] "k" "myop" (.int 1) [] = false := by
  refine ⟨rfl, ?_, ?_, ?_⟩
  · exact (absent_key_semantics [("myop", fun fv _ => some (valueIsNil fv))]
      "k" .null [] rfl).1.1
  · exact (absent_key_semantics [("myop", fun fv _ => some (valueIsNil fv))]
      "k" (.int 1) [] rfl).2.1 "myop" _ true (by decide) rfl rfl
  · exact (absent_key_semantics [] "k" (.int 1) [] rfl).2.2 "myop" (by decide) rfl

/-- Counterexample for C2: registering a validator under the built-in
identifier `==` puts `==` into the registry, and on a record where the key
is absent such a validator changes the result of evaluating a `==`-leaf
(built-in semantics gives false, the registered validator gives true) — so
built-in identifiers can be registry entries and their absent-key behaviour
can be overridden. -/
theorem builtin_registry_counterexample :
    GetRegisteredCustomOperators
        ((RegisterCustomOperator [] "==" (some fun _ _ => some true)).getD []) = ["=="]
    ∧ evalSingleCondition [("==", fun _ _ => some true)] "k" "==" (.int 1) [] = true
    ∧ evalSingleCondition [] "k" "==" (.int 1) [] = false :=
  ⟨rfl, rfl, rfl⟩

/-- C2 as amended.  When the leaf's operator is one of the six
existence/state operators, or its key is present in the data record, the
evaluation of a built-in-operator leaf is independent of the custom-operator
registry (only for an absent key and a non-existence operator is the
registry consulted). -/
theorem builtin_dispatch_registry_independent (reg : Registry) (key op : String)
    (value : Value) (data : Data) (hop : op ∈ builtinOperators)
    (hk : op ∈ existenceOperators ∨ (dataLookup data key).isSome = true) :
    evalSingleCondition reg key op value data = evalSingleCondition [] key op value data := by
  have hop' : op = "isnull" ∨ op = "isnotnull" ∨ op = "isempty" ∨ op = "isnotempty"
      ∨ op = "istrue" ∨ op = "isfalse" ∨ op = "==" ∨ op = "!=" ∨ op = ">"
      ∨ op = ">=" ∨ op = "<" ∨ op = "<=" ∨ op = "in" ∨ op = "nin"
      ∨ op = "contains" ∨ op = "ncontains" ∨ op = "like" ∨ op = "ilike"
      ∨ op = "nlike" ∨ op = "startswith" ∨ op = "endswith" ∨ op = "between"
      ∨ op = "notbetween" := by
    simpa [builtinOperators, existenceOperators] using hop
  rcases hk with hex | hsome
  · rcases hop' with rfl|rfl|rfl|rfl|rfl|rfl|rfl|rfl|rfl|rfl|rfl|rfl|rfl|rfl|rfl|rfl|rfl|rfl|rfl|rfl|rfl|rfl|rfl <;>
      first
        | rfl
        | exact absurd hex (by decide)
  · rcases hop' with rfl|rfl|rfl|rfl|rfl|rfl|rfl|rfl|rfl|rfl|rfl|rfl|rfl|rfl|rfl|rfl|rfl|rfl|rfl|rfl|rfl|rfl|rfl <;>
      first
        | rfl
        | simp [evalSingleCondition, hsome]

/-- Witness for C2 (amended): a validator registered under `==` that would
flip the result is ignored when the key is present, and one under `isnull`
is ignored always. -/
theorem builtin_dispatch_registry_independent_witness :
    evalSingleCondition [("==", fun _ _ => some false)] "k" "==" (.int 5) [("k", .int 5)]
      = evalSingleCondition [] "k" "==" (.int 5) [("k", .int 5)]
    ∧ evalSingleCondition [("isnull", fun _ _ => some false)] "k" "isnull" .null []
      = evalSingleCondition [] "k" "isnull" .null [] :=
  ⟨builtin_dispatch_registry_independent _ "k" "==" (.int 5) [("k", .int 5)]
      (by decide) (Or.inr rfl),
   builtin_dispatch_registry_independent _ "k" "isnull" .null []
      (by decide) (Or.inl (by decide))⟩

/-- C3.  The registration guard and fault containment:
`RegisterCustomOperator` panics (returns `none` in the model) exactly when
the supplied validator is nil; and a custom validator that faults (returns
`none`) is contained at its leaf — that leaf evaluates to false and an
enclosing group continues with the sibling conditions.  (Both evaluators are
total Lean functions over the model by construction, which is the shape of
"evaluation always returns a boolean and never raises".) -/
theorem validator_fault_contract :
    (∀ (reg : Registry) (op : String) (v : Option CustomOperatorValidator),
        RegisterCustomOperator reg op v = none ↔ v = none)
    ∧ (∀ (reg : Registry) (key op : String) (value : Value) (data : Data)
          (f : CustomOperatorValidator) (c : Conditions),
        op ∉ builtinOperators → key ≠ "" → op ≠ "" →
        lookupOperator reg op = some f →
        f ((dataLookup data key).getD Value.null) value = none →
        evalSingleCondition reg key op value data = false
        ∧ EvaluateCondition reg (.mk "OR" [.mk "" [] key op value, c] "" "" .null) data
            = EvaluateCondition reg c data) := by
  constructor
  · intro reg op v
    cases v <;> simp [RegisterCustomOperator]
  · intro reg key op value data f c hmem hkey hop hreg hf
    obtain ⟨h1, h2, h3, h4, h5, h6, h7, h8, h9, h10, h11, h12, h13, h14, h15,
      h16, h17, h18, h19, h20, h21, h22, h23⟩ := not_builtin_ne op hmem
    have hleaf : evalSingleCondition reg key op value data = false := by
      rcases hl : dataLookup data key with _ | v <;> rw [hl] at hf <;>
        simp only [Option.getD_none, Option.getD_some] at hf <;>
        simp [evalSingleCondition, hl, h1, h2, h3, h4, h5, h6, h7, h8, h9, h10,
          h11, h12, h13, h14, h15, h16, h17, h18, h19, h20, h21, h22, h23, hreg,
          invokeValidator, hf]
    refine ⟨hleaf, ?_⟩
    have hor : EvaluateCondition reg (.mk "" [] key op value) data = false := by
      simp only [EvaluateCondition]
      rw [if_neg (by simp), if_pos ⟨hkey, hop⟩]
      exact hleaf
    have hsingle : evalChildrenOr reg [c] data = EvaluateCondition reg c data := by
      cases hc : EvaluateCondition reg c data <;> simp [evalChildrenOr, hc]
    calc EvaluateCondition reg (.mk "OR" [.mk "" [] key op value, c] "" "" .null) data
        = evalChildrenOr reg [.mk "" [] key op value, c] data := by
          simp [EvaluateCondition]
      _ = evalChildrenOr reg [c] data := by simp [evalChildrenOr, hor]
      _ = EvaluateCondition reg c data := hsingle

/-- Witness for C3: a validator that always panics; its leaf is false and an
OR-group containing it evaluates to its sibling's value. -/
theorem validator_fault_contract_witness :
    RegisterCustomOperator [] "op" none = none
    ∧ evalSingleCondition [("boom", fun _ _ => none)] "k" "boom" .null
        [("k", .int 1)] = false
    ∧ EvaluateCondition [("boom", fun _ _ => none)]
        (.mk "OR" [.mk "" [] "k" "boom" .null, .mk "" [] "k" "isnotnull" .null] "" "" .null)
        [("k", .int 1)]
      = EvaluateCondition [("boom", fun _ _ => none)]
          (.mk "" [] "k" "isnotnull" .null) [("k", .int 1)] := by
  have h := validator_fault_contract.2 [("boom", fun _ _ => none)] "k" "boom"
    .null [("k", .int 1)] (fun _ _ => none) (.mk "" [] "k" "isnotnull" .null)
    (by decide) (by decide) (by decide) rfl rfl
  exact ⟨(validator_fault_contract.1 [] "op" none).mpr rfl, h.1, h.2⟩

mutual
/-- The boolean component of the instrumented tree evaluator is
`EvaluateCondition`. -/
theorem evalCondTrace_fst : ∀ (cond : Conditions) (reg : Registry) (data : Data),
    (EvaluateConditionTrace reg cond data).1 = EvaluateCondition reg cond data
  | .mk logic children key op value, reg, data => by
    simp only [EvaluateConditionTrace, EvaluateCondition]
    by_cases hg : logic ≠ "" ∧ children.isEmpty = false
    · rw [if_pos hg, if_pos hg]
      by_cases hA : logic = "AND"
      · simp only [if_pos hA, evalChildrenAndTrace_fst children reg data]
      · by_cases hO : logic = "OR"
        · simp only [if_neg hA, if_pos hO, evalChildrenOrTrace_fst children reg data]
        · by_cases hl : key ≠ "" ∧ op ≠ "" <;>
            simp [if_neg hA, if_neg hO, hl]
    · by_cases hl : key ≠ "" ∧ op ≠ "" <;>
        simp [if_neg hg, hl]

/-- The boolean component of the instrumented AND loop is the AND loop. -/
theorem evalChildrenAndTrace_fst : ∀ (children : List Conditions) (reg : Registry) (data : Data),
    (evalChildrenAndTrace reg children data).1 = evalChildrenAnd reg children data
  | [], _, _ => rfl
  | c :: rest, reg, data => by
    simp only [evalChildrenAndTrace, evalChildrenAnd, evalCondTrace_fst c reg data]
    cases h : EvaluateCondition reg c data <;>
      simp [h, evalChildrenAndTrace_fst rest reg data]

/-- The boolean component of the instrumented OR loop is the OR loop. -/
theorem evalChildrenOrTrace_fst : ∀ (children : List Conditions) (reg : Registry) (data : Data),
    (evalChildrenOrTrace reg children data).1 = evalChildrenOr reg children data
  | [], _, _ => rfl
  | c :: rest, reg, data => by
    simp only [evalChildrenOrTrace, evalChildrenOr, evalCondTrace_fst c reg data]
    cases h : EvaluateCondition reg c data <;>
      simp [h, evalChildrenOrTrace_fst rest reg data]
end

/-- Prefix of all-true children: the instrumented AND loop passes through
them, accumulating their leaf invocations. -/
theorem evalChildrenAndTrace_true_prefix (reg : Registry) (data : Data)
    (pre ls : List Conditions)
    (hpre : ∀ a ∈ pre, (EvaluateConditionTrace reg a data).1 = true) :
    evalChildrenAndTrace reg (pre ++ ls) data
      = ((evalChildrenAndTrace reg ls data).1,
         pre.flatMap (fun a => (EvaluateConditionTrace reg a data).2)
           ++ (evalChildrenAndTrace reg ls data).2) := by
  induction pre with
  | nil => simp
  | cons a pre ih =>
    have ha : (EvaluateConditionTrace reg a data).1 = true := hpre a (by simp)
    have hpre' : ∀ b ∈ pre, (EvaluateConditionTrace reg b data).1 = true :=
      fun b hb => hpre b (by simp [hb])
    simp [evalChildrenAndTrace, ha, ih hpre', List.append_assoc]

/-- Prefix of all-false children: the instrumented OR loop passes through
them, accumulating their leaf invocations. -/
theorem evalChildrenOrTrace_false_prefix (reg : Registry) (data : Data)
    (pre ls : List Conditions)
    (hpre : ∀ a ∈ pre, (EvaluateConditionTrace reg a data).1 = false) :
    evalChildrenOrTrace reg (pre ++ ls) data
      = ((evalChildrenOrTrace reg ls data).1,
         pre.flatMap (fun a => (EvaluateConditionTrace reg a data).2)
           ++ (evalChildrenOrTrace reg ls data).2) := by
  induction pre with
  | nil => simp
  | cons a pre ih =>
    have ha : (EvaluateConditionTrace reg a data).1 = false := hpre a (by simp)
    have hpre' : ∀ b ∈ pre, (EvaluateConditionTrace reg b data).1 = false :=
      fun b hb => hpre b (by simp [hb])
    simp [evalChildrenOrTrace, ha, ih hpre', List.append_assoc]

/-- C4.  Tree-group short-circuit: the instrumented evaluator (whose boolean
component is `EvaluateCondition`, first conjunct) shows that an AND group
whose children are an all-true prefix, a false child `b`, and an arbitrary
rest evaluates to false having performed exactly the prefix's and `b`'s leaf
invocations — nothing after the first false child is evaluated, so a child
whose evaluation would fault is never invoked; dually for OR with the first
true child. -/
theorem group_short_circuit :
    (∀ (reg : Registry) (cond : Conditions) (data : Data),
      (EvaluateConditionTrace reg cond data).1 = EvaluateCondition reg cond data)
    ∧ (∀ (reg : Registry) (data : Data) (key op : String) (value : Value)
          (pre : List Conditions) (b : Conditions) (post : List Conditions),
        (∀ a ∈ pre, (EvaluateConditionTrace reg a data).1 = true) →
        (EvaluateConditionTrace reg b data).1 = false →
        EvaluateConditionTrace reg (.mk "AND" (pre ++ b :: post) key op value) data
          = (false, pre.flatMap (fun a => (EvaluateConditionTrace reg a data).2)
                      ++ (EvaluateConditionTrace reg b data).2))
    ∧ (∀ (reg : Registry) (data : Data) (key op : String) (value : Value)
          (pre : List Conditions) (b : Conditions) (post : List Conditions),
        (∀ a ∈ pre, (EvaluateConditionTrace reg a data).1 = false) →
        (EvaluateConditionTrace reg b data).1 = true →
        EvaluateConditionTrace reg (.mk "OR" (pre ++ b :: post) key op value) data
          = (true, pre.flatMap (fun a => (EvaluateConditionTrace reg a data).2)
                     ++ (EvaluateConditionTrace reg b data).2)) := by
  refine ⟨fun reg cond data => evalCondTrace_fst cond reg data, ?_, ?_⟩
  · intro reg data key op value pre b post hpre hb
    have hne : (pre ++ b :: post).isEmpty = false := by
      cases pre <;> rfl
    have h1 : EvaluateConditionTrace reg (.mk "AND" (pre ++ b :: post) key op value) data
        = evalChildrenAndTrace reg (pre ++ b :: post) data := by
      simp [EvaluateConditionTrace, hne]
    rw [h1, evalChildrenAndTrace_true_prefix reg data pre (b :: post) hpre]
    simp [evalChildrenAndTrace, hb]
  · intro reg data key op value pre b post hpre hb
    have hne : (pre ++ b :: post).isEmpty = false := by
      cases pre <;> rfl
    have h1 : EvaluateConditionTrace reg (.mk "OR" (pre ++ b :: post) key op value) data
        = evalChildrenOrTrace reg (pre ++ b :: post) data := by
      simp [EvaluateConditionTrace, hne]
    rw [h1, evalChildrenOrTrace_false_prefix reg data pre (b :: post) hpre]
    simp [evalChildrenOrTrace, hb]

/-- Witness for C4: with children `[A(false), B]` in an AND group, `B`'s
leaf — whose registered validator would fault — contributes nothing to the
trace; dually for OR with `A(true)`. -/
theorem group_short_circuit_witness :
    EvaluateConditionTrace [("boom", fun _ _ => none)]
        (.mk "AND" [.mk "" [] "k" "isnull" .null, .mk "" [] "k" "boom" .null] "" "" .null)
        [("k", .int 1)]
      = (false, [⟨"k", "isnull", .null⟩])
    ∧ EvaluateConditionTrace [("boom", fun _ _ => none)]
        (.mk "OR" [.mk "" [] "k" "isnotnull" .null, .mk "" [] "k" "boom" .null] "" "" .null)
        [("k", .int 1)]
      = (true, [⟨"k", "isnotnull", .null⟩]) := by
  constructor
  · have h := group_short_circuit.2.1 [("boom", fun _ _ => none)] [("k", .int 1)]
      "" "" .null [] (.mk "" [] "k" "isnull" .null) [.mk "" [] "k" "boom" .null]
      (by intro a ha; cases ha) rfl
    simpa using h
  · have h := group_short_circuit.2.2 [("boom", fun _ _ => none)] [("k", .int 1)]
      "" "" .null [] (.mk "" [] "k" "isnotnull" .null) [.mk "" [] "k" "boom" .null]
      (by intro a ha; cases ha) rfl
    simpa using h

/-- The per-step connective of the Flexible-Chain specification (§4.5 of the
spec): `AND` → conjunction, `OR` → disjunction, an absent/unspecified
connective is treated as `AND`. -/
def specCombine (connective : String) (acc cur : Bool) : Bool :=
  if connective = "AND" then acc && cur
  else if connective = "OR" then acc || cur
  else acc && cur

/-- The spec's left fold continued from an accumulated result and the
pending connective of the previous link. -/
def specChainFoldFrom (acc : Bool) (pending : String) : List (Bool × String) → Bool
  | [] => acc
  | (b, nl) :: rest => specChainFoldFrom (specCombine pending acc b) nl rest

/-- The spec's chain fold over (link result, link connective) pairs: empty →
true; else start from the first link's result and fold left. -/
def specChainFold : List (Bool × String) → Bool
  | [] => true
  | (b, nl) :: rest => specChainFoldFrom b nl rest

/-- `chainLoop` computes the spec's continued left fold. -/
theorem chainLoop_eq_specFoldFrom :
    ∀ (rest : List ConditionWithLogic) (reg : Registry) (data : Data)
      (acc : Bool) (prev : ConditionWithLogic),
    chainLoop reg acc prev rest data
      = specChainFoldFrom acc prev.nextLogic
          (rest.map (fun c => (evaluateConditionWithLogic reg c data, c.nextLogic))) := by
  intro rest
  induction rest with
  | nil => intros; rfl
  | cons c rest' ih =>
    intro reg data acc prev
    simp only [chainLoop, List.map_cons, specChainFoldFrom, ih, applyNextLogic,
      specCombine]

mutual
/-- The boolean component of the instrumented chain evaluator is
`EvaluateConditionGroup`. -/
theorem evalGroupTrace_fst : ∀ (g : ConditionGroup) (reg : Registry) (data : Data),
    (EvaluateConditionGroupTrace reg g data).1 = EvaluateConditionGroup reg g data
  | .mk [], _, _ => rfl
  | .mk (c :: rest), reg, data => by
    simp only [EvaluateConditionGroupTrace, EvaluateConditionGroup]
    rw [chainLoopTrace_fst rest reg data _ _ c, evalCWLTrace_fst c reg data]

/-- The boolean component of the instrumented chain loop is `chainLoop`. -/
theorem chainLoopTrace_fst : ∀ (rest : List ConditionWithLogic) (reg : Registry)
    (data : Data) (result : Bool) (trace : List LeafCall) (prev : ConditionWithLogic),
    (chainLoopTrace reg result trace prev rest data).1 = chainLoop reg result prev rest data
  | [], _, _, _, _, _ => rfl
  | c :: rest', reg, data, result, trace, prev => by
    simp only [chainLoopTrace, chainLoop]
    rw [chainLoopTrace_fst rest' reg data _ _ c, evalCWLTrace_fst c reg data]

/-- The boolean component of the instrumented link evaluator is
`evaluateConditionWithLogic`. -/
theorem evalCWLTrace_fst : ∀ (c : ConditionWithLogic) (reg : Registry) (data : Data),
    (evaluateConditionWithLogicTrace reg c data).1 = evaluateConditionWithLogic reg c data
  | .mk _ _ _ (some g) _, reg, data => evalGroupTrace_fst g reg data
  | .mk _ _ _ none _, _, _ => rfl
end

/-- The instrumented chain loop appends every remaining link's leaf
invocations to the accumulated trace — no link is skipped. -/
theorem chainLoopTrace_trace :
    ∀ (rest : List ConditionWithLogic) (reg : Registry) (data : Data)
      (result : Bool) (trace : List LeafCall) (prev : ConditionWithLogic),
    (chainLoopTrace reg result trace prev rest data).2
      = trace ++ rest.flatMap (fun c => (evaluateConditionWithLogicTrace reg c data).2) := by
  intro rest
  induction rest with
  | nil => intros; simp [chainLoopTrace]
  | cons c rest' ih =>
    intro reg data result trace prev
    simp [chainLoopTrace, ih, List.append_assoc]

/-- C5.  Chain evaluation is a left fold with an explicit per-step
connective: an empty chain is true; the result is the first link's value
folded left-to-right with each later link's value through the preceding
link's `next_logic` (absent → AND) — stated against the spec-side fold
`specChainFold`; and every link is evaluated regardless of the partial
result: the instrumented evaluator's trace is the concatenation of all
links' leaf invocations (last conjunct ties the instrumented evaluator's
boolean to `EvaluateConditionGroup`). -/
theorem chain_left_fold :
    (∀ (reg : Registry) (data : Data), EvaluateConditionGroup reg (.mk []) data = true)
    ∧ (∀ (reg : Registry) (g : ConditionGroup) (data : Data),
        EvaluateConditionGroup reg g data
          = specChainFold (g.conditions.map
              (fun c => (evaluateConditionWithLogic reg c data, c.nextLogic))))
    ∧ (∀ (reg : Registry) (g : ConditionGroup) (data : Data),
        (EvaluateConditionGroupTrace reg g data).2
          = g.conditions.flatMap (fun c => (evaluateConditionWithLogicTrace reg c data).2))
    ∧ (∀ (reg : Registry) (g : ConditionGroup) (data : Data),
        (EvaluateConditionGroupTrace reg g data).1 = EvaluateConditionGroup reg g data) := by
  refine ⟨fun _ _ => rfl, ?_, ?_, fun reg g data => evalGroupTrace_fst g reg data⟩
  · intro reg g data
    match g with
    | .mk [] => rfl
    | .mk (c :: rest) =>
      simp only [EvaluateConditionGroup, ConditionGroup.conditions, List.map_cons,
        specChainFold, chainLoop_eq_specFoldFrom rest reg data]
  · intro reg g data
    match g with
    | .mk [] => rfl
    | .mk (c :: rest) =>
      simp only [EvaluateConditionGroupTrace, ConditionGroup.conditions,
        chainLoopTrace_trace rest reg data, List.flatMap_cons]

/-- Witness for C5: a two-link chain with an OR connective where the first
link fails; both links appear in the trace and the fold yields true. -/
theorem chain_left_fold_witness :
    EvaluateConditionGroup [] (.mk [.mk "age" ">" (.int 30) none "OR",
        .mk "c" "==" (.str "TH") none ""]) [("age", .int 25), ("c", .str "TH")]
      = specChainFold [(false, "OR"), (true, "")]
    ∧ (EvaluateConditionGroupTrace [] (.mk [.mk "age" ">" (.int 30) none "OR",
        .mk "c" "==" (.str "TH") none ""]) [("age", .int 25), ("c", .str "TH")]).2
      = [⟨"age", ">", .int 30⟩, ⟨"c", "==", .str "TH"⟩] := by
  constructor
  · have h := chain_left_fold.2.1 [] (.mk [.mk "age" ">" (.int 30) none "OR",
      .mk "c" "==" (.str "TH") none ""]) [("age", .int 25), ("c", .str "TH")]
    rw [h]
    rfl
  · have h := chain_left_fold.2.2.1 [] (.mk [.mk "age" ">" (.int 30) none "OR",
      .mk "c" "==" (.str "TH") none ""]) [("age", .int 25), ("c", .str "TH")]
    rw [h]
    rfl

/-- `evalSingleCondition` reads the data record and the registry only
through their lookup functions. -/
theorem evalSingleCondition_congr (reg reg' : Registry) (data data' : Data)
    (key op : String) (value : Value)
    (hreg : ∀ o, lookupOperator reg o = lookupOperator reg' o)
    (hdata : ∀ k, dataLookup data k = dataLookup data' k) :
    evalSingleCondition reg key op value data
      = evalSingleCondition reg' key op value data' := by
  simp only [evalSingleCondition, hreg op, hdata key]

mutual
/-- Tree evaluation depends on the data record and registry only through
their lookup functions. -/
theorem EvaluateCondition_congr : ∀ (t : Conditions) (reg reg' : Registry)
    (data data' : Data),
    (∀ o, lookupOperator reg o = lookupOperator reg' o) →
    (∀ k, dataLookup data k = dataLookup data' k) →
    EvaluateCondition reg t data = EvaluateCondition reg' t data'
  | .mk logic children key op value, reg, reg', data, data', hreg, hdata => by
    simp only [EvaluateCondition]
    by_cases hg : logic ≠ "" ∧ children.isEmpty = false
    · rw [if_pos hg, if_pos hg]
      by_cases hA : logic = "AND"
      · rw [if_pos hA, if_pos hA,
          evalChildrenAnd_congr children reg reg' data data' hreg hdata]
      · rw [if_neg hA, if_neg hA]
        by_cases hO : logic = "OR"
        · rw [if_pos hO, if_pos hO,
            evalChildrenOr_congr children reg reg' data data' hreg hdata]
        · rw [if_neg hO, if_neg hO]
          by_cases hl : key ≠ "" ∧ op ≠ ""
          · rw [if_pos hl, if_pos hl,
              evalSingleCondition_congr reg reg' data data' key op value hreg hdata]
          · rw [if_neg hl, if_neg hl]
    · rw [if_neg hg, if_neg hg]
      by_cases hl : key ≠ "" ∧ op ≠ ""
      · rw [if_pos hl, if_pos hl,
          evalSingleCondition_congr reg reg' data data' key op value hreg hdata]
      · rw [if_neg hl, if_neg hl]

theorem evalChildrenAnd_congr : ∀ (cs : List Conditions) (reg reg' : Registry)
    (data data' : Data),
    (∀ o, lookupOperator reg o = lookupOperator reg' o) →
    (∀ k, dataLookup data k = dataLookup data' k) →
    evalChildrenAnd reg cs data = evalChildrenAnd reg' cs data'
  | [], _, _, _, _, _, _ => rfl
  | c :: rest, reg, reg', data, data', hreg, hdata => by
    simp only [evalChildrenAnd,
      EvaluateCondition_congr c reg reg' data data' hreg hdata,
      evalChildrenAnd_congr rest reg reg' data data' hreg hdata]

theorem evalChildrenOr_congr : ∀ (cs : List Conditions) (reg reg' : Registry)
    (data data' : Data),
    (∀ o, lookupOperator reg o = lookupOperator reg' o) →
    (∀ k, dataLookup data k = dataLookup data' k) →
    evalChildrenOr reg cs data = evalChildrenOr reg' cs data'
  | [], _, _, _, _, _, _ => rfl
  | c :: rest, reg, reg', data, data', hreg, hdata => by
    simp only [evalChildrenOr,
      EvaluateCondition_congr c reg reg' data data' hreg hdata,
      evalChildrenOr_congr rest reg reg' data data' hreg hdata]
end

/-- Counterexample for C9: the result of `EvaluateCondition` is not a
function of the tree and data alone — the same leaf on the same record
evaluates differently under two registry states (exactly the spec's own
register/unregister scenario). -/
theorem purity_counterexample :
    EvaluateCondition [] (.mk "" [] "k" "myop" (.int 1)) [("k", .int 1)] = false
    ∧ EvaluateCondition [("myop", fun _ _ => some true)]
        (.mk "" [] "k" "myop" (.int 1)) [("k", .int 1)] = true :=
  ⟨rfl, rfl⟩

/-- C9 as amended.  Evaluation is a pure function of the tree, the data
record's lookup table and the registry's lookup table: evaluations against
data records and registries with pointwise-equal lookups coincide (the
association-list representations may differ).  Observable mutation of `t` or
`d` does not exist in the pure model. -/
theorem evaluate_depends_only_on_lookups :
    ∀ (t : Conditions) (reg reg' : Registry) (data data' : Data),
    (∀ o, lookupOperator reg o = lookupOperator reg' o) →
    (∀ k, dataLookup data k = dataLookup data' k) →
    EvaluateCondition reg t data = EvaluateCondition reg' t data' :=
  EvaluateCondition_congr

/-- Witness for C9 (amended): a registry with a shadowed duplicate entry and
a data record with a shadowed duplicate key evaluate like their deduplicated
forms. -/
theorem evaluate_depends_only_on_lookups_witness :
    EvaluateCondition [("m", fun _ _ => some true), ("m", fun _ _ => some false)]
        (.mk "" [] "a" "m" .null) [("a", .int 1), ("a", .int 2)]
      = EvaluateCondition [("m", fun _ _ => some true)]
          (.mk "" [] "a" "m" .null) [("a", .int 1)] :=
  evaluate_depends_only_on_lookups (.mk "" [] "a" "m" .null)
    [("m", fun _ _ => some true), ("m", fun _ _ => some false)]
    [("m", fun _ _ => some true)]
    [("a", .int 1), ("a", .int 2)] [("a", .int 1)]
    (by intro o; by_cases h : "m" = o <;> simp [lookupOperator, h])
    (by intro k; by_cases h : "a" = k <;> simp [dataLookup, h])

/-- The AND loop is the conjunction of the children's evaluations. -/
theorem evalChildrenAnd_eq_all (reg : Registry) (data : Data) :
    ∀ cs : List Conditions,
    evalChildrenAnd reg cs data = cs.all (fun c => EvaluateCondition reg c data) := by
  intro cs
  induction cs with
  | nil => rfl
  | cons c rest ih =>
    cases h : EvaluateCondition reg c data <;> simp [evalChildrenAnd, h, ih]

/-- The OR loop is the disjunction of the children's evaluations. -/
theorem evalChildrenOr_eq_any (reg : Registry) (data : Data) :
    ∀ cs : List Conditions,
    evalChildrenOr reg cs data = cs.any (fun c => EvaluateCondition reg c data) := by
  intro cs
  induction cs with
  | nil => rfl
  | cons c rest ih =>
    cases h : EvaluateCondition reg c data <;> simp [evalChildrenOr, h, ih]

/-- `convertChildren` on a singleton builds the last, connective-free
link. -/
theorem convertChildren_singleton (logic : String) (c : Conditions) :
    convertChildren logic [c] = [convertChild "" c] := by
  cases c
  rfl

/-- `convertChildren` on two or more children builds a head link carrying
the group's logic. -/
theorem convertChildren_cons₂ (logic : String) (c c' : Conditions)
    (rest : List Conditions) :
    convertChildren logic (c :: c' :: rest)
      = convertChild logic c :: convertChildren logic (c' :: rest) := by
  cases c
  rfl

/-- The link built for a child carries the assigned connective. -/
theorem convertChild_nextLogic (nl : String) (c : Conditions) :
    (convertChild nl c).nextLogic = nl := by
  cases c with
  | mk l cs k o v =>
    rw [convertChild]
    by_cases hk : k ≠ ""
    · rw [if_pos hk]
      rfl
    · rw [if_neg hk]
      rfl

/-- Every member of an `allWellFormed` list is well-formed. -/
theorem allWellFormed_mem : ∀ {cs : List Conditions} {c : Conditions},
    allWellFormed cs = true → c ∈ cs → WellFormed c = true := by
  intro cs
  induction cs with
  | nil => intro c _ hc; cases hc
  | cons a rest ih =>
    intro c h hc
    rw [allWellFormed, Bool.and_eq_true] at h
    rcases List.mem_cons.mp hc with rfl | hc'
    · exact h.1
    · exact ih h.2 hc'

/-- Folding the converted links of an AND group through `chainLoop`, from an
accumulator with a pending AND connective, is the conjunction of the
accumulator with all children's evaluations. -/
theorem chainLoop_convert_and (reg : Registry) (data : Data) :
    ∀ (cs : List Conditions) (acc : Bool) (prev : ConditionWithLogic),
    cs ≠ [] → prev.nextLogic = "AND" →
    (∀ c ∈ cs, ∀ nl, evaluateConditionWithLogic reg (convertChild nl c) data
        = EvaluateCondition reg c data) →
    chainLoop reg acc prev (convertChildren "AND" cs) data
      = (acc && cs.all (fun c => EvaluateCondition reg c data)) := by
  intro cs
  induction cs with
  | nil => intro acc prev hne; exact absurd rfl hne
  | cons c rest ih =>
    intro acc prev _ hprev hcwl
    cases rest with
    | nil =>
      rw [convertChildren_singleton]
      simp [chainLoop, applyNextLogic, hprev, hcwl c (by simp) ""]
    | cons c' rest' =>
      rw [convertChildren_cons₂]
      rw [chainLoop, ih (applyNextLogic prev.nextLogic acc
          (evaluateConditionWithLogic reg (convertChild "AND" c) data))
          (convertChild "AND" c) (by simp) (convertChild_nextLogic "AND" c)
          (fun d hd nl => hcwl d (by simp [hd]) nl)]
      simp [applyNextLogic, hprev, hcwl c (by simp) "AND", Bool.and_assoc]

/-- Folding the converted links of an OR group through `chainLoop`, from an
accumulator with a pending OR connective, is the disjunction of the
accumulator with all children's evaluations. -/
theorem chainLoop_convert_or (reg : Registry) (data : Data) :
    ∀ (cs : List Conditions) (acc : Bool) (prev : ConditionWithLogic),
    cs ≠ [] → prev.nextLogic = "OR" →
    (∀ c ∈ cs, ∀ nl, evaluateConditionWithLogic reg (convertChild nl c) data
        = EvaluateCondition reg c data) →
    chainLoop reg acc prev (convertChildren "OR" cs) data
      = (acc || cs.any (fun c => EvaluateCondition reg c data)) := by
  intro cs
  induction cs with
  | nil => intro acc prev hne; exact absurd rfl hne
  | cons c rest ih =>
    intro acc prev _ hprev hcwl
    cases rest with
    | nil =>
      rw [convertChildren_singleton]
      simp [chainLoop, applyNextLogic, hprev, hcwl c (by simp) ""]
    | cons c' rest' =>
      rw [convertChildren_cons₂]
      rw [chainLoop, ih (applyNextLogic prev.nextLogic acc
          (evaluateConditionWithLogic reg (convertChild "OR" c) data))
          (convertChild "OR" c) (by simp) (convertChild_nextLogic "OR" c)
          (fun d hd nl => hcwl d (by simp [hd]) nl)]
      simp [applyNextLogic, hprev, hcwl c (by simp) "OR", Bool.or_assoc]

/-- Evaluating the chain of converted links of a non-empty AND group is the
conjunction of the children's evaluations. -/
theorem evalGroup_convert_and (reg : Registry) (data : Data)
    (cs : List Conditions) (hne : cs ≠ [])
    (hcwl : ∀ c ∈ cs, ∀ nl, evaluateConditionWithLogic reg (convertChild nl c) data
        = EvaluateCondition reg c data) :
    EvaluateConditionGroup reg (.mk (convertChildren "AND" cs)) data
      = cs.all (fun c => EvaluateCondition reg c data) := by
  cases cs with
  | nil => exact absurd rfl hne
  | cons c rest =>
    cases rest with
    | nil =>
      rw [convertChildren_singleton]
      simp [EvaluateConditionGroup, chainLoop, hcwl c (by simp) ""]
    | cons c' rest' =>
      rw [convertChildren_cons₂, EvaluateConditionGroup,
        chainLoop_convert_and reg data (c' :: rest')
          (evaluateConditionWithLogic reg (convertChild "AND" c) data)
          (convertChild "AND" c) (by simp) (convertChild_nextLogic "AND" c)
          (fun d hd nl => hcwl d (by simp [hd]) nl)]
      simp [hcwl c (by simp) "AND"]

/-- Evaluating the chain of converted links of a non-empty OR group is the
disjunction of the children's evaluations. -/
theorem evalGroup_convert_or (reg : Registry) (data : Data)
    (cs : List Conditions) (hne : cs ≠ [])
    (hcwl : ∀ c ∈ cs, ∀ nl, evaluateConditionWithLogic reg (convertChild nl c) data
        = EvaluateCondition reg c data) :
    EvaluateConditionGroup reg (.mk (convertChildren "OR" cs)) data
      = cs.any (fun c => EvaluateCondition reg c data) := by
  cases cs with
  | nil => exact absurd rfl hne
  | cons c rest =>
    cases rest with
    | nil =>
      rw [convertChildren_singleton]
      simp [EvaluateConditionGroup, chainLoop, hcwl c (by simp) ""]
    | cons c' rest' =>
      rw [convertChildren_cons₂, EvaluateConditionGroup,
        chainLoop_convert_or reg data (c' :: rest')
          (evaluateConditionWithLogic reg (convertChild "OR" c) data)
          (convertChild "OR" c) (by simp) (convertChild_nextLogic "OR" c)
          (fun d hd nl => hcwl d (by simp [hd]) nl)]
      simp [hcwl c (by simp) "OR"]

/-- C1.  Conversion fidelity: for every well-formed condition tree, every
data record and every registry, evaluating the converted chain gives the
same boolean as evaluating the tree:
`EvaluateConditionGroup (ConvertToConditionGroup t) d = EvaluateCondition t d`. -/
theorem convert_preserves_evaluation :
    ∀ (t : Conditions) (reg : Registry) (data : Data),
    WellFormed t = true →
    EvaluateConditionGroup reg (ConvertToConditionGroup t) data
      = EvaluateCondition reg t data
  | .mk logic children key op value, reg, data, hwf => by
    rw [WellFormed] at hwf
    simp only [Bool.or_eq_true, Bool.and_eq_true, decide_eq_true_eq,
      Bool.not_eq_true', List.isEmpty_eq_false, List.isEmpty_iff] at hwf
    rcases hwf with ⟨⟨⟨hkey, hlogic⟩, hne⟩, hallwf⟩ | ⟨⟨hkey, hop⟩, hchil⟩
    · -- Group node: key = "", logic ∈ {AND, OR}, children non-empty.
      subst hkey
      have hcwl : ∀ c ∈ children, ∀ nl,
          evaluateConditionWithLogic reg (convertChild nl c) data
            = EvaluateCondition reg c data := by
        intro c hc nl
        have hwfc := allWellFormed_mem hallwf hc
        have hrec := fun h =>
          convert_preserves_evaluation c reg data h
        cases c with
        | mk lc csc kc oc vc =>
          by_cases hkc : kc = ""
          · subst hkc
            simp only [convertChild, ne_eq, not_true_eq_false, if_false,
              evaluateConditionWithLogic]
            exact hrec hwfc
          · rw [WellFormed] at hwfc
            simp only [Bool.or_eq_true, Bool.and_eq_true, decide_eq_true_eq,
              Bool.not_eq_true', List.isEmpty_eq_false, List.isEmpty_iff] at hwfc
            rcases hwfc with ⟨⟨⟨hk, _⟩, _⟩, _⟩ | ⟨⟨_, ho⟩, hcs⟩
            · exact absurd hk hkc
            · subst hcs
              simp [convertChild, hkc, evaluateConditionWithLogic,
                EvaluateCondition, ho]
      have hne' : children.isEmpty = false := by
        cases children with
        | nil => exact absurd rfl hne
        | cons a r => rfl
      have hconv : ConvertToConditionGroup (.mk logic children "" op value)
          = .mk (convertChildren logic children) := by
        rw [ConvertToConditionGroup]
        simp [hne']
      rcases hlogic with rfl | rfl
      · rw [hconv, evalGroup_convert_and reg data children hne hcwl,
          ← evalChildrenAnd_eq_all]
        simp [EvaluateCondition, hne']
      · rw [hconv, evalGroup_convert_or reg data children hne hcwl,
          ← evalChildrenOr_eq_any]
        simp [EvaluateCondition, hne']
    · -- Leaf node: key and operator non-empty, no children.
      subst hchil
      rw [ConvertToConditionGroup]
      simp [hkey, EvaluateConditionGroup, chainLoop, evaluateConditionWithLogic,
        EvaluateCondition, hop]
  termination_by t _ _ _ => sizeOf t
  decreasing_by
    have := List.sizeOf_lt_of_mem hc
    simp only [Conditions.mk.sizeOf_spec]
    omega

/-- Why well-formedness is the tagged-variant reading: a hybrid node
carrying both Group fields (`logic`, `children`) and Leaf fields (`key`,
`operator`) is classified as a Group by `EvaluateCondition` (which tests
`logic` first) but as a Leaf by `ConvertToConditionGroup` (which tests `key`
first), and the two evaluations genuinely diverge.  Such nodes are not
`WellFormed`. -/
theorem hybrid_node_diverges :
    EvaluateConditionGroup []
        (ConvertToConditionGroup
          (.mk "AND" [.mk "" [] "k" "isnull" .null] "k" "isnotnull" .null)) [] = false
    ∧ EvaluateCondition []
        (.mk "AND" [.mk "" [] "k" "isnull" .null] "k" "isnotnull" .null) [] = true
    ∧ WellFormed (.mk "AND" [.mk "" [] "k" "isnull" .null] "k" "isnotnull" .null)
        = false := by
  refine ⟨?_, rfl, rfl⟩
  have h : ConvertToConditionGroup
      (.mk "AND" [.mk "" [] "k" "isnull" .null] "k" "isnotnull" .null)
      = .mk [.mk "k" "isnotnull" .null none ""] := by
    rw [ConvertToConditionGroup]
    simp
  rw [h]
  rfl

/-- Witness for C1: a mixed two-level tree (an AND group containing a leaf
and an OR group) on a concrete record. -/
theorem convert_preserves_evaluation_witness :
    WellFormed (.mk "AND" [.mk "" [] "age" ">" (.int 18),
        .mk "OR" [.mk "" [] "c" "==" (.str "SG"), .mk "" [] "c" "==" (.str "TH")]
          "" "" .null] "" "" .null) = true
    ∧ EvaluateConditionGroup []
        (ConvertToConditionGroup (.mk "AND" [.mk "" [] "age" ">" (.int 18),
          .mk "OR" [.mk "" [] "c" "==" (.str "SG"), .mk "" [] "c" "==" (.str "TH")]
            "" "" .null] "" "" .null))
        [("age", .int 25), ("c", .str "TH")]
      = EvaluateCondition [] (.mk "AND" [.mk "" [] "age" ">" (.int 18),
          .mk "OR" [.mk "" [] "c" "==" (.str "SG"), .mk "" [] "c" "==" (.str "TH")]
            "" "" .null] "" "" .null)
          [("age", .int 25), ("c", .str "TH")] :=
  ⟨by decide,
   convert_preserves_evaluation (.mk "AND" [.mk "" [] "age" ">" (.int 18),
      .mk "OR" [.mk "" [] "c" "==" (.str "SG"), .mk "" [] "c" "==" (.str "TH")]
        "" "" .null] "" "" .null) []
     [("age", .int 25), ("c", .str "TH")] (by decide)⟩

end Jsonvaluate
